import Mathlib

/-!
Verification of the `envsubst` shell-parameter expansion library.

The repository's public surface (`src/eval.go`) consists of the entry points
`Eval`, `EvalEnv` and `ApplyReplacements`, thin wrappers around a
parse/execute core (scanner, parser, glob pattern matcher, evaluator).
That core is not part of `src/`, so it is modelled here from the
specification (`spec.md` sections 2-4 and 6-7); the wrappers themselves are
translated directly from `src/eval.go`.

Strings are embedded as `List Char`; the Go `string` entry points convert
via `String.data`.  A lookup is a function `name -> (value, found)`,
mirroring Go's `func(string) (string, bool)`.
-/

/-- Modelled from the spec: scope of a `Replace` modifier
(`${name/pat/rep}`, `${name//…}`, `${name/#…}`, `${name/%…}`). -/
inductive ReplaceScope where
  | first
  | all
  | prefixAnchored
  | suffixAnchored
deriving DecidableEq

/-- Modelled from the spec: direction of the case modifiers. -/
inductive Direction where
  | upper
  | lower
deriving DecidableEq

mutual
/-- Modelled from the spec (§3 Data Model): a parse-tree node is either a
literal run of characters or an expansion `${name…}` with at most one
modifier. -/
inductive Node where
  | literal (text : List Char) : Node
  | expansion (name : List Char) (modifier : Modifier) : Node

/-- Modelled from the spec (§3 Data Model): the mutually exclusive
transformation attached to an expansion.  `trimLead`/`trimTrail` are the
spec's `TrimPrefix`/`TrimSuffix`; operands that may contain nested
expansions are node sequences. -/
inductive Modifier where
  | none : Modifier
  | length : Modifier
  | caseFirst (dir : Direction) : Modifier
  | caseAll (dir : Direction) : Modifier
  | substring (offset : Int) (len : Option Int) : Modifier
  | default (requireUnsetOrEmpty : Bool) (value : List Node) : Modifier
  | trimLead (pat : List Node) (greedy : Bool) : Modifier
  | trimTrail (pat : List Node) (greedy : Bool) : Modifier
  | replace (pat : List Node) (repl : List Node) (scope : ReplaceScope) : Modifier
end

/-- A lookup over embedded strings: `name -> (value, found)`. -/
abbrev LookupLC := List Char → List Char × Bool

/-- Modelled from the spec (§4.3 Pattern Matcher): does the glob pattern
(literals, `*`, `?`, backslash-escape) match the whole subject?  Fuel makes
the `*` case obviously terminating; every step consumes pattern or subject,
so `pat.length + subj.length + 1` fuel is always enough. -/
def globMatch (fuel : Nat) (pat subj : List Char) : Bool :=
  match fuel, pat, subj with
  | 0, _, _ => false
  | _ + 1, [], [] => true
  | _ + 1, [], _ :: _ => false
  | f + 1, '\\' :: c :: ps, s =>
      match s with
      | x :: xs => x = c && globMatch f ps xs
      | [] => false
  | f + 1, '*' :: ps, s =>
      globMatch f ps s ||
        (match s with
         | _ :: xs => globMatch f ('*' :: ps) xs
         | [] => false)
  | f + 1, '?' :: ps, s =>
      match s with
      | _ :: xs => globMatch f ps xs
      | [] => false
  | f + 1, c :: ps, s =>
      match s with
      | x :: xs => x = c && globMatch f ps xs
      | [] => false

/-- Full-string glob match with sufficient fuel. -/
def globFull (pat subj : List Char) : Bool :=
  globMatch (pat.length + subj.length + 1) pat subj

/-- Modelled from the spec (§4.3): length of the shortest / longest prefix
of `subj` matched by `pat`, if any. -/
def leadMatchLen (pat subj : List Char) (greedy : Bool) : Option Nat :=
  let cands := List.range (subj.length + 1)
  (if greedy then cands.reverse else cands).find? (fun k => globFull pat (subj.take k))

/-- Modelled from the spec (§4.3): length of the shortest / longest suffix
of `subj` matched by `pat`, if any. -/
def trailMatchLen (pat subj : List Char) (greedy : Bool) : Option Nat :=
  let n := subj.length
  let cands := List.range (n + 1)
  (if greedy then cands.reverse else cands).find? (fun k => globFull pat (subj.drop (n - k)))

/-- Modelled from the spec (§4.4): `${name#pat}` / `${name##pat}` — remove
the shortest (resp. longest) matching prefix, or leave the value unchanged
when no prefix matches. -/
def trimLeadRun (pat subj : List Char) (greedy : Bool) : List Char :=
  match leadMatchLen pat subj greedy with
  | some k => subj.drop k
  | Option.none => subj

/-- Modelled from the spec (§4.4): `${name%pat}` / `${name%%pat}` — remove
the shortest (resp. longest) matching suffix, or leave the value unchanged. -/
def trimTrailRun (pat subj : List Char) (greedy : Bool) : List Char :=
  match trailMatchLen pat subj greedy with
  | some k => subj.take (subj.length - k)
  | Option.none => subj

/-- Longest span matched by `pat` at the front of `s`, if any. -/
def matchLenAt (pat s : List Char) : Option Nat :=
  leadMatchLen pat s true

/-- Modelled from the spec (§4.3): scope `First` — scan left to right and
replace the first (longest-at-that-position) match. -/
def replFirst (pat repl : List Char) (fuel : Nat) (s : List Char) : List Char :=
  match fuel, s with
  | 0, s => s
  | _ + 1, [] => if globFull pat [] then repl else []
  | f + 1, c :: rest =>
      match matchLenAt pat (c :: rest) with
      | some (k + 1) => repl ++ (c :: rest).drop (k + 1)
      | some 0 => repl ++ c :: rest
      | Option.none => c :: replFirst pat repl f rest

/-- Modelled from the spec (§4.3): scope `All` — non-overlapping matches,
greedily left to right; an empty-width match never consumes, so the scan
advances one character past it. -/
def replAll (pat repl : List Char) (fuel : Nat) (s : List Char) : List Char :=
  match fuel, s with
  | 0, s => s
  | _ + 1, [] => []
  | f + 1, c :: rest =>
      match matchLenAt pat (c :: rest) with
      | some (k + 1) => repl ++ replAll pat repl f ((c :: rest).drop (k + 1))
      | some 0 => c :: replAll pat repl f rest
      | Option.none => c :: replAll pat repl f rest

/-- Modelled from the spec (§4.3): dispatch of the four replace scopes. -/
def replaceRun (pat repl subj : List Char) (scope : ReplaceScope) : List Char :=
  match scope with
  | .first => replFirst pat repl subj.length subj
  | .all => replAll pat repl subj.length subj
  | .prefixAnchored =>
      match matchLenAt pat subj with
      | some k => repl ++ subj.drop k
      | Option.none => subj
  | .suffixAnchored =>
      match trailMatchLen pat subj true with
      | some k => subj.take (subj.length - k) ++ repl
      | Option.none => subj

/-- Modelled from the spec (§4.4): case transform of the first character. -/
def caseFirstRun (dir : Direction) : List Char → List Char
  | [] => []
  | c :: cs =>
      match dir with
      | .upper => c.toUpper :: cs
      | .lower => c.toLower :: cs

/-- Modelled from the spec (§4.4): case transform of every character. -/
def caseAllRun (dir : Direction) (s : List Char) : List Char :=
  match dir with
  | .upper => s.map Char.toUpper
  | .lower => s.map Char.toLower

/-- Modelled from the spec (§4.4): `${name:off[:len]}` with the offset
clamped to `[0, len(value)]` and the length clamped to the remaining
characters; an omitted length means "to the end". -/
def substringRun (s : List Char) (off : Int) (len : Option Int) : List Char :=
  let start := (min (max off 0) (s.length : Int)).toNat
  let rest := s.drop start
  match len with
  | some l => rest.take l.toNat
  | Option.none => rest

mutual
/-- Modelled from the spec (§4.4 Evaluator, non-strict path): evaluate one
node against a lookup.  A bare reference whose lookup reports
`found = false` contributes the empty string; operands of `Default`, trim
and replace modifiers are themselves evaluated recursively. -/
def execNode (lookup : LookupLC) : Node → List Char
  | .literal t => t
  | .expansion name mod =>
      let value := (lookup name).1
      let found := (lookup name).2
      match mod with
      | .none => if found then value else []
      | .length => (Nat.repr (if found then value else []).length).data
      | .caseFirst dir => caseFirstRun dir value
      | .caseAll dir => caseAllRun dir value
      | .substring off len => substringRun value off len
      | .default req ops =>
          let d := execSeq lookup ops
          if !found || (req && value.isEmpty) then d else value
      | .trimLead pat greedy => trimLeadRun (execSeq lookup pat) value greedy
      | .trimTrail pat greedy => trimTrailRun (execSeq lookup pat) value greedy
      | .replace pat repl scope =>
          replaceRun (execSeq lookup pat) (execSeq lookup repl) value scope

/-- Modelled from the spec (§4.4, non-strict path): evaluate a node
sequence in order, concatenating the outputs; every occurrence resolves
through the same lookup. -/
def execSeq (lookup : LookupLC) : List Node → List Char
  | [] => []
  | n :: ns => execNode lookup n ++ execSeq lookup ns
end

/-- Error raised by the strict evaluation path when a bare reference is
unset. -/
inductive EvalError where
  | valueNotFound (name : List Char) : EvalError
deriving DecidableEq

mutual
/-- Modelled from the spec (§4.4 Evaluator, strict path / §7): identical to
`execNode` except that a bare reference (`Modifier.none`) whose lookup
reports `found = false` fails with `ValueNotFoundError(name)`; operands are
evaluated on the strict path as well, and the first failure wins. -/
def execStrictNode (lookup : LookupLC) : Node → Except EvalError (List Char)
  | .literal t => .ok t
  | .expansion name mod =>
      let value := (lookup name).1
      let found := (lookup name).2
      match mod with
      | .none => if found then .ok value else .error (.valueNotFound name)
      | .length => .ok (Nat.repr (if found then value else []).length).data
      | .caseFirst dir => .ok (caseFirstRun dir value)
      | .caseAll dir => .ok (caseAllRun dir value)
      | .substring off len => .ok (substringRun value off len)
      | .default req ops =>
          match execStrictSeq lookup ops with
          | .error e => .error e
          | .ok d => .ok (if !found || (req && value.isEmpty) then d else value)
      | .trimLead pat greedy =>
          match execStrictSeq lookup pat with
          | .error e => .error e
          | .ok p => .ok (trimLeadRun p value greedy)
      | .trimTrail pat greedy =>
          match execStrictSeq lookup pat with
          | .error e => .error e
          | .ok p => .ok (trimTrailRun p value greedy)
      | .replace pat repl scope =>
          match execStrictSeq lookup pat with
          | .error e => .error e
          | .ok p =>
              match execStrictSeq lookup repl with
              | .error e => .error e
              | .ok r => .ok (replaceRun p r value scope)

/-- Modelled from the spec (§4.4, strict path): evaluate a node sequence in
order; the first `ValueNotFoundError` aborts the walk. -/
def execStrictSeq (lookup : LookupLC) : List Node → Except EvalError (List Char)
  | [] => .ok []
  | n :: ns =>
      match execStrictNode lookup n with
      | .error e => .error e
      | .ok a =>
          match execStrictSeq lookup ns with
          | .error e => .error e
          | .ok b => .ok (a ++ b)
end

/-- Modelled from the spec (§2, §7): the syntax-error kinds listed in §4.2
(the position/message payload carried by the real error is not needed by
any property and is omitted). -/
inductive SyntaxError where
  | unterminated : SyntaxError
  | badModifier : SyntaxError
  | badNumber : SyntaxError
deriving DecidableEq

/-- Modelled from the spec: name characters of an expansion's identifier. -/
def isNameChar (c : Char) : Bool :=
  c.isAlphanum || c = '_'

/-- Modelled from the spec (§4.1 Scanner): scan for the `}` terminating an
expansion group, tracking a nesting depth so that inner `${…}` groups in an
operand do not close the outer group.  Returns the group contents and the
remainder after the closing brace, or `none` when the group is
unterminated. -/
def findClose (depth : Nat) (acc : List Char) : List Char → Option (List Char × List Char)
  | [] => Option.none
  | '}' :: rest =>
      match depth with
      | 0 => some (acc.reverse, rest)
      | d + 1 => findClose d ('}' :: acc) rest
  | '$' :: '{' :: rest => findClose (depth + 1) ('{' :: '$' :: acc) rest
  | c :: rest => findClose depth (c :: acc) rest

/-- Modelled from the spec (§4.2): split a replace operand at the first
unescaped `/` into pattern text and replacement text; a backslash escapes
the following character and is kept in the pattern text (the matcher
consumes it). -/
def splitPatRepl : List Char → Option (List Char × List Char)
  | [] => Option.none
  | '\\' :: c :: rest => (splitPatRepl rest).map (fun pr => ('\\' :: c :: pr.1, pr.2))
  | '/' :: rest => some ([], rest)
  | c :: rest => (splitPatRepl rest).map (fun pr => (c :: pr.1, pr.2))

/-- Parse a non-empty all-digit run as a natural number. -/
def parseDigits (l : List Char) : Option Nat :=
  if l.isEmpty || !(l.all Char.isDigit) then Option.none
  else some (l.foldl (fun acc c => acc * 10 + (c.toNat - '0'.toNat)) 0)

/-- Modelled from the spec (§4.2): substring offset/length operand — an
optionally negated digit run; anything else is the non-numeric-bound
syntax error. -/
def parseInt (l : List Char) : Option Int :=
  match l with
  | '-' :: rest => (parseDigits rest).map (fun n => -(n : Int))
  | _ => (parseDigits l).map (fun n => (n : Int))

mutual
/-- Modelled from the spec (§4.2 Parser): repeatedly consume literal runs
(up to the next `$`), the escape `$$` (one literal `$`), a lone `$` (kept
literal) and `${…}` expansion groups.  Fuel decreases at every recursive
step; the entry point supplies `input.length + 2`, which is always
sufficient because each level of nesting strictly shrinks the text being
parsed. -/
def parseTemplate (fuel : Nat) (l : List Char) : Except SyntaxError (List Node) :=
  match fuel with
  | 0 => .error .unterminated
  | f + 1 =>
      match l with
      | [] => .ok []
      | _ =>
          let lit := l.takeWhile (fun c => c ≠ '$')
          let rest := l.dropWhile (fun c => c ≠ '$')
          let pre : List Node := if lit.isEmpty then [] else [.literal lit]
          match rest with
          | [] => .ok pre
          | '$' :: '$' :: r =>
              match parseTemplate f r with
              | .error e => .error e
              | .ok ns => .ok (pre ++ Node.literal ['$'] :: ns)
          | '$' :: '{' :: r =>
              match findClose 0 [] r with
              | Option.none => .error .unterminated
              | some (contents, rest2) =>
                  match parseExpansionBody f contents with
                  | .error e => .error e
                  | .ok node =>
                      match parseTemplate f rest2 with
                      | .error e => .error e
                      | .ok ns => .ok (pre ++ node :: ns)
          | '$' :: r =>
              match parseTemplate f r with
              | .error e => .error e
              | .ok ns => .ok (pre ++ Node.literal ['$'] :: ns)
          | _ :: _ => .error .unterminated

/-- Modelled from the spec (§4.2 Parser): parse the contents of one
`${…}` group — `#name` for `Length`, else the name followed by an optional
modifier; operand text for defaults, patterns and replacements is parsed
recursively as a template.  An unknown modifier character is a syntax
error. -/
def parseExpansionBody (fuel : Nat) (l : List Char) : Except SyntaxError Node :=
  match fuel with
  | 0 => .error .unterminated
  | f + 1 =>
      match l with
      | '#' :: r =>
          let name := r.takeWhile isNameChar
          let rest := r.dropWhile isNameChar
          if rest.isEmpty then .ok (.expansion name .length) else .error .badModifier
      | _ =>
          let name := l.takeWhile isNameChar
          let rest := l.dropWhile isNameChar
          match rest with
          | [] => .ok (.expansion name .none)
          | ['^'] => .ok (.expansion name (.caseFirst .upper))
          | ['^', '^'] => .ok (.expansion name (.caseAll .upper))
          | '^' :: _ => .error .badModifier
          | [','] => .ok (.expansion name (.caseFirst .lower))
          | [',', ','] => .ok (.expansion name (.caseAll .lower))
          | ',' :: _ => .error .badModifier
          | '=' :: r =>
              match parseTemplate f r with
              | .error e => .error e
              | .ok ops => .ok (.expansion name (.default false ops))
          | '-' :: r =>
              match parseTemplate f r with
              | .error e => .error e
              | .ok ops => .ok (.expansion name (.default false ops))
          | ':' :: '=' :: r =>
              match parseTemplate f r with
              | .error e => .error e
              | .ok ops => .ok (.expansion name (.default true ops))
          | ':' :: '-' :: r =>
              match parseTemplate f r with
              | .error e => .error e
              | .ok ops => .ok (.expansion name (.default true ops))
          | ':' :: '+' :: _ => .error .badModifier
          | ':' :: '?' :: _ => .error .badModifier
          | ':' :: r =>
              let offTxt := r.takeWhile (fun c => c ≠ ':')
              let rest2 := r.dropWhile (fun c => c ≠ ':')
              match parseInt offTxt with
              | Option.none => .error .badNumber
              | some off =>
                  match rest2 with
                  | [] => .ok (.expansion name (.substring off Option.none))
                  | ':' :: lenTxt =>
                      match parseInt lenTxt with
                      | Option.none => .error .badNumber
                      | some len => .ok (.expansion name (.substring off (some len)))
                  | _ :: _ => .error .badNumber
          | '#' :: '#' :: r =>
              match parseTemplate f r with
              | .error e => .error e
              | .ok pat => .ok (.expansion name (.trimLead pat true))
          | '#' :: r =>
              match parseTemplate f r with
              | .error e => .error e
              | .ok pat => .ok (.expansion name (.trimLead pat false))
          | '%' :: '%' :: r =>
              match parseTemplate f r with
              | .error e => .error e
              | .ok pat => .ok (.expansion name (.trimTrail pat true))
          | '%' :: r =>
              match parseTemplate f r with
              | .error e => .error e
              | .ok pat => .ok (.expansion name (.trimTrail pat false))
          | '/' :: r =>
              let scopeBody : ReplaceScope × List Char :=
                match r with
                | '/' :: r2 => (.all, r2)
                | '#' :: r2 => (.prefixAnchored, r2)
                | '%' :: r2 => (.suffixAnchored, r2)
                | _ => (.first, r)
              let patRepl : List Char × List Char :=
                match splitPatRepl scopeBody.2 with
                | some pr => pr
                | Option.none => (scopeBody.2, [])
              match parseTemplate f patRepl.1 with
              | .error e => .error e
              | .ok pat =>
                  match parseTemplate f patRepl.2 with
                  | .error e => .error e
                  | .ok repl => .ok (.expansion name (.replace pat repl scopeBody.1))
          | _ :: _ => .error .badModifier
end

/-- Modelled from the spec (§4.2): the parse entry point of the core,
`parse(input) -> (Tree, SyntaxError?)` (named `Parse` in the repository,
called by `src/eval.go`). -/
def Parse (s : String) : Except SyntaxError (List Node) :=
  parseTemplate (s.data.length + 2) s.data

/-- Error type surfaced by the `src/eval.go` entry points: either a parser
syntax error or the strict path's value-not-found error. -/
inductive EvalErr where
  | syntaxError (e : SyntaxError) : EvalErr
  | valueNotFound (name : List Char) : EvalErr
deriving DecidableEq

/-- Adapt a Go-style `func(string) (string, bool)` mapping to a lookup over
embedded strings. -/
def toLookupLC (mapping : String → String × Bool) : LookupLC :=
  fun n => ((mapping ⟨n⟩).1.data, (mapping ⟨n⟩).2)

/-- From `src/eval.go`: `Eval` replaces `${var}` in the string based on the
mapping function; a parse error returns the input string unchanged together
with the error, otherwise the tree is executed (on the non-strict path, per
spec §6: `expand` is the general non-strict form). -/
def Eval (s : String) (mapping : String → String × Bool) : String × Option EvalErr :=
  match Parse s with
  | .error e => (s, some (.syntaxError e))
  | .ok t => (⟨execSeq (toLookupLC mapping) t⟩, Option.none)

/-- From `src/eval.go`: `EvalEnv` replaces `${var}` according to the
current environment; `os.LookupEnv` is modelled as an injected
`name -> Option value` function (absent means `found = false`). -/
def EvalEnv (env : String → Option String) (s : String) : String × Option EvalErr :=
  Eval s (fun n =>
    match env n with
    | some v => (v, true)
    | Option.none => ("", false))

/-- The Go-style mapping `ApplyReplacements` builds from its value map
(`value, ok := values[s]`; a Go map is modelled as an association list, a
missing key yields `("", false)`, and a `nil` map behaves as the empty
map). -/
def mapMapping (values : List (String × String)) : String → String × Bool :=
  fun n =>
    match values.find? (fun p => p.1 == n) with
    | some p => (p.2, true)
    | Option.none => ("", false)

/-- From `src/eval.go` (`ApplyReplacements`): after replacing a `nil` map
with the empty map, the wrapper delegates to `Eval` with the map-backed
mapping — the same single (non-strict) tree-execution path used by `Eval`
and `EvalEnv`; nothing in `src/eval.go` selects the spec's strict
`expand_map` path. -/
def ApplyReplacements (input : String) (values : List (String × String)) : String × Option EvalErr :=
  Eval input (mapMapping values)

mutual
/-- Does the node contain (anywhere, including inside operand subtrees) a
bare reference — an expansion with `Modifier.none` — whose name the lookup
reports as unset?  This formalizes "the template contains a bare reference
`${name}` whose name is absent". -/
def nodeHasBareAbsent (L : LookupLC) : Node → Bool
  | .literal _ => false
  | .expansion name mod =>
      match mod with
      | .none => !(L name).2
      | .length => false
      | .caseFirst _ => false
      | .caseAll _ => false
      | .substring _ _ => false
      | .default _ ops => seqHasBareAbsent L ops
      | .trimLead pat _ => seqHasBareAbsent L pat
      | .trimTrail pat _ => seqHasBareAbsent L pat
      | .replace pat repl _ => seqHasBareAbsent L pat || seqHasBareAbsent L repl

/-- Sequence version of `nodeHasBareAbsent`. -/
def seqHasBareAbsent (L : LookupLC) : List Node → Bool
  | [] => false
  | n :: ns => nodeHasBareAbsent L n || seqHasBareAbsent L ns
end

mutual
/-- Does the node contain a bare reference to the specific unset name
`nm`? -/
def nodeHasBareAbsentNamed (L : LookupLC) (nm : List Char) : Node → Bool
  | .literal _ => false
  | .expansion name mod =>
      match mod with
      | .none => name == nm && !(L name).2
      | .length => false
      | .caseFirst _ => false
      | .caseAll _ => false
      | .substring _ _ => false
      | .default _ ops => seqHasBareAbsentNamed L nm ops
      | .trimLead pat _ => seqHasBareAbsentNamed L nm pat
      | .trimTrail pat _ => seqHasBareAbsentNamed L nm pat
      | .replace pat repl _ => seqHasBareAbsentNamed L nm pat || seqHasBareAbsentNamed L nm repl

/-- Sequence version of `nodeHasBareAbsentNamed`. -/
def seqHasBareAbsentNamed (L : LookupLC) (nm : List Char) : List Node → Bool
  | [] => false
  | n :: ns => nodeHasBareAbsentNamed L nm n || seqHasBareAbsentNamed L nm ns
end

/-- Lookup of the trim test cases: `f` resolves to `"bash.string.txt"`
(`found = true`), everything else is unset. -/
def lookupF : String → String × Bool :=
  fun n => if n = "f" then ("bash.string.txt", true) else ("", false)

/-- Lookup of the replace test cases: `z` resolves to `"abcABC123ABCabc"`
(`found = true`), everything else is unset. -/
def lookupZ : String → String × Bool :=
  fun n => if n = "z" then ("abcABC123ABCabc", true) else ("", false)

/-- Lookup of the nested-default test case: `v01` resolves to
`"abcdEFGH28ij"` (`found = true`); `var` (and everything else) is unset. -/
def lookupV01 : String → String × Bool :=
  fun n => if n = "v01" then ("abcdEFGH28ij", true) else ("", false)

/-- A lookup under which every name is unset. -/
def emptyLookup : String → String × Bool :=
  fun _ => ("", false)

/-- Classification of one strict node evaluation: success means no bare
unset reference is contained; failure is a `ValueNotFoundError` carrying a
contained bare unset name. -/
def NodeClassified (L : LookupLC) (n : Node) : Prop :=
  match execStrictNode L n with
  | .ok _ => nodeHasBareAbsent L n = false
  | .error (.valueNotFound nm) =>
      nodeHasBareAbsent L n = true ∧ nodeHasBareAbsentNamed L nm n = true

/-- Classification of a strict sequence evaluation. -/
def SeqClassified (L : LookupLC) (ns : List Node) : Prop :=
  match execStrictSeq L ns with
  | .ok _ => seqHasBareAbsent L ns = false
  | .error (.valueNotFound nm) =>
      seqHasBareAbsent L ns = true ∧ seqHasBareAbsentNamed L nm ns = true

mutual
theorem nodeClassified (L : LookupLC) : ∀ n : Node, NodeClassified L n
  | .literal t => by
      simp [NodeClassified, execStrictNode, nodeHasBareAbsent]
  | .expansion name mod => by
      cases mod with
      | none =>
          by_cases h : (L name).2 <;>
            simp [NodeClassified, execStrictNode, nodeHasBareAbsent,
              nodeHasBareAbsentNamed, h]
      | length =>
          simp [NodeClassified, execStrictNode, nodeHasBareAbsent]
      | caseFirst dir =>
          simp [NodeClassified, execStrictNode, nodeHasBareAbsent]
      | caseAll dir =>
          simp [NodeClassified, execStrictNode, nodeHasBareAbsent]
      | substring off len =>
          simp [NodeClassified, execStrictNode, nodeHasBareAbsent]
      | default req ops =>
          have ih := seqClassified L ops
          revert ih
          simp only [NodeClassified, SeqClassified, execStrictNode,
            nodeHasBareAbsent, nodeHasBareAbsentNamed]
          cases h : execStrictSeq L ops with
          | ok d => simp
          | error e => cases e with
            | valueNotFound nm => simp
      | trimLead pat greedy =>
          have ih := seqClassified L pat
          revert ih
          simp only [NodeClassified, SeqClassified, execStrictNode,
            nodeHasBareAbsent, nodeHasBareAbsentNamed]
          cases h : execStrictSeq L pat with
          | ok d => simp
          | error e => cases e with
            | valueNotFound nm => simp
      | trimTrail pat greedy =>
          have ih := seqClassified L pat
          revert ih
          simp only [NodeClassified, SeqClassified, execStrictNode,
            nodeHasBareAbsent, nodeHasBareAbsentNamed]
          cases h : execStrictSeq L pat with
          | ok d => simp
          | error e => cases e with
            | valueNotFound nm => simp
      | replace pat repl scope =>
          have ih1 := seqClassified L pat
          have ih2 := seqClassified L repl
          revert ih1 ih2
          simp only [NodeClassified, SeqClassified, execStrictNode,
            nodeHasBareAbsent, nodeHasBareAbsentNamed]
          cases h1 : execStrictSeq L pat with
          | ok d =>
              cases h2 : execStrictSeq L repl with
              | ok r => simp_all
              | error e => cases e with
                | valueNotFound nm => simp_all
          | error e => cases e with
            | valueNotFound nm => simp_all

theorem seqClassified (L : LookupLC) : ∀ ns : List Node, SeqClassified L ns
  | [] => by simp [SeqClassified, execStrictSeq, seqHasBareAbsent]
  | n :: ns => by
      have ih1 := nodeClassified L n
      have ih2 := seqClassified L ns
      revert ih1 ih2
      simp only [NodeClassified, SeqClassified, execStrictSeq,
        seqHasBareAbsent, seqHasBareAbsentNamed]
      cases h1 : execStrictNode L n with
      | ok a =>
          cases h2 : execStrictSeq L ns with
          | ok b => simp_all
          | error e => cases e with
            | valueNotFound nm => simp_all
      | error e => cases e with
        | valueNotFound nm => simp_all
end

/-- C10: for every input string and mapping, if parsing fails with a
syntax error then `Eval` returns the original input string itself,
unchanged, paired with that error. -/
theorem Eval_parse_error_returns_input (s : String) (mapping : String → String × Bool)
    (e : SyntaxError) (h : Parse s = .error e) :
    Eval s mapping = (s, some (.syntaxError e)) := by
  unfold Eval
  rw [h]

/-- Witness for C10 at the unterminated template `"${x"`. -/
theorem Eval_parse_error_returns_input_witness :
    Eval "$\x7bx" emptyLookup = ("$\x7bx", some (.syntaxError .unterminated)) :=
  Eval_parse_error_returns_input "$\x7bx" emptyLookup .unterminated rfl

/-- C4: for every lookup, the escape `$$` emits a single literal `$` and
does not start an expansion: `Eval "$${x}" L = ("${x}", nil)` with the
brace text untouched. -/
theorem Eval_escape_dollar (L : String → String × Bool) :
    Eval "$${x}" L = ("${x}", Option.none) :=
  rfl

/-- C9: applying a `Default` never writes the default back into the lookup
source: each node of a sequence is evaluated against the same original
lookup (first conjunct), so after `${var=xyz}` triggers its default, a
later bare `${var}` still resolves as unset and renders empty in
non-strict mode (second conjunct). -/
theorem Eval_default_not_written_back (L : LookupLC) (n : Node) (ns : List Node) :
    (execSeq L (n :: ns) = execNode L n ++ execSeq L ns)
    ∧ Eval "${var=xyz}${var}" emptyLookup = ("xyz", Option.none) :=
  ⟨rfl, rfl⟩

/-- C3: the non-strict entry points `Eval` and `EvalEnv` never return a
`ValueNotFoundError`, and a bare reference whose lookup reports
`found = false` contributes the empty string to the output. -/
theorem Eval_nonstrict_no_valueNotFound (s : String) (mapping : String → String × Bool)
    (env : String → Option String) :
    (∀ nm, (Eval s mapping).2 ≠ some (.valueNotFound nm))
    ∧ (∀ nm, (EvalEnv env s).2 ≠ some (.valueNotFound nm))
    ∧ (∀ (L : LookupLC) nm, (L nm).2 = false → execNode L (.expansion nm .none) = []) := by
  refine ⟨?_, ?_, ?_⟩
  · intro nm
    unfold Eval
    cases h : Parse s <;> simp
  · intro nm
    unfold EvalEnv Eval
    cases h : Parse s <;> simp
  · intro L nm h
    simp [execNode, h]

/-- Witness for C3 at a concrete template, mapping and name. -/
theorem Eval_nonstrict_no_valueNotFound_witness :
    ((Eval "${q}" emptyLookup).2 ≠ some (.valueNotFound ['q']))
    ∧ execNode (fun _ => ([], false)) (.expansion ['q'] .none) = [] :=
  ⟨(Eval_nonstrict_no_valueNotFound "${q}" emptyLookup (fun _ => Option.none)).1 ['q'],
   (Eval_nonstrict_no_valueNotFound "${q}" emptyLookup (fun _ => Option.none)).2.2
     (fun _ => ([], false)) ['q'] rfl⟩

/-- Strict evaluation of a single-literal operand always succeeds with the
literal text. -/
theorem execStrictSeq_single_literal (L : LookupLC) (d : List Char) :
    execStrictSeq L [.literal d] = .ok d := by
  simp [execStrictSeq, execStrictNode]

/-- C2: for every lookup, `${name=d}` (`require_unset_or_empty = false`)
yields the default only when `found = false` — when `found = true` with an
empty value it yields the empty value, not `d` — while `${name:=d}`
(`require_unset_or_empty = true`) yields `d` when `found = false` or the
value is empty; on both the non-strict and the strict path. -/
theorem default_modifier_trigger (L : LookupLC) (nm d : List Char) :
    (execNode L (.expansion nm (.default false [.literal d])) =
       (if (L nm).2 then (L nm).1 else d))
    ∧ (execNode L (.expansion nm (.default true [.literal d])) =
       (if (L nm).2 = false ∨ (L nm).1 = [] then d else (L nm).1))
    ∧ (execStrictNode L (.expansion nm (.default false [.literal d])) =
       .ok (if (L nm).2 then (L nm).1 else d))
    ∧ (execStrictNode L (.expansion nm (.default true [.literal d])) =
       .ok (if (L nm).2 = false ∨ (L nm).1 = [] then d else (L nm).1)) := by
  refine ⟨?_, ?_, ?_, ?_⟩ <;>
    by_cases h : (L nm).2 <;>
      by_cases hv : (L nm).1 = [] <;>
        simp [execNode, execStrictNode, execSeq, execStrictSeq_single_literal,
          h, hv, List.isEmpty_iff]

/-- C6: with `f` resolving to `"bash.string.txt"`, trim-prefix and
trim-suffix obey shortest-vs-longest matching: `${f#*.}`, `${f##*.}`,
`${f%.*}`, `${f%%.*}`. -/
theorem Eval_trim_shortest_longest :
    Eval "${f#*.}" lookupF = ("string.txt", Option.none)
    ∧ Eval "${f##*.}" lookupF = ("txt", Option.none)
    ∧ Eval "${f%.*}" lookupF = ("bash.string", Option.none)
    ∧ Eval "${f%%.*}" lookupF = ("bash", Option.none) :=
  ⟨rfl, rfl, rfl, rfl⟩

/-- C7: with `z` resolving to `"abcABC123ABCabc"`, the four replace scopes
behave as first-occurrence, all-occurrences, prefix-anchored and
suffix-anchored replacement. -/
theorem Eval_replace_scopes :
    Eval "${z/abc/xyz}" lookupZ = ("xyzABC123ABCabc", Option.none)
    ∧ Eval "${z//abc/xyz}" lookupZ = ("xyzABC123ABCxyz", Option.none)
    ∧ Eval "$\x7bz/\x23abc/XYZ\x7d" lookupZ = ("XYZABC123ABCabc", Option.none)
    ∧ Eval "${z/%abc/XYZ}" lookupZ = ("abcABC123ABCXYZ", Option.none) :=
  ⟨rfl, rfl, rfl, rfl⟩

/-- C8: operands of default-supplying modifiers are recursively expanded:
with `v01` resolving to `"abcdEFGH28ij"` and `var` unset,
`${var=${v01^^}}` evaluates the nested `${v01^^}` (uppercasing) inside the
default operand before emitting it. -/
theorem Eval_nested_default_operand :
    Eval "${var=${v01^^}}" lookupV01 = ("ABCDEFGH28IJ", Option.none) :=
  rfl

/-- On a `$`-free input the parser produces a single literal node (or
nothing, when the input is empty). -/
theorem parseTemplate_noDollar (f : Nat) (l : List Char) (h : '$' ∉ l) :
    parseTemplate (f + 1) l = .ok (if l.isEmpty then [] else [.literal l]) := by
  have hall : ∀ c ∈ l, (fun c => decide (c ≠ '$')) c = true := by
    intro c hc
    simp only [decide_eq_true_eq]
    intro he
    exact h (he ▸ hc)
  have ht : l.takeWhile (fun c => c ≠ '$') = l := List.takeWhile_eq_self_iff.mpr hall
  have hd : l.dropWhile (fun c => c ≠ '$') = [] := List.dropWhile_eq_nil_iff.mpr hall
  cases l with
  | nil => rfl
  | cons c cs =>
      simp only [parseTemplate, ht, hd, List.isEmpty_cons, Bool.false_eq_true,
        if_neg, List.isEmpty_eq_false]

/-- C5: for every string containing no `$` and every lookup,
`Eval` is the identity (first conjunct); consequently re-running `Eval`
on such an output returns it unchanged (second conjunct). -/
theorem Eval_noDollar_identity (s : String) (L L2 : String → String × Bool)
    (h : '$' ∉ s.data) :
    Eval s L = (s, Option.none)
    ∧ Eval (Eval s L).1 L2 = ((Eval s L).1, Option.none) := by
  have main : ∀ M : String → String × Bool, Eval s M = (s, Option.none) := by
    intro M
    unfold Eval Parse
    rw [show s.data.length + 2 = (s.data.length + 1) + 1 from rfl,
      parseTemplate_noDollar _ _ h]
    by_cases he : s.data.isEmpty
    · have hnil : s.data = [] := List.isEmpty_iff.mp he
      simp only [he, if_pos]
      show (String.mk (execSeq (toLookupLC M) []), Option.none) = (s, Option.none)
      rw [show execSeq (toLookupLC M) [] = [] from rfl, show ([] : List Char) = s.data from hnil.symm]
    · simp only [he, Bool.false_eq_true, if_neg, Bool.not_eq_true]
      show (String.mk (execSeq (toLookupLC M) [.literal s.data]), Option.none) = (s, Option.none)
      rw [show execSeq (toLookupLC M) [.literal s.data] = s.data ++ [] from rfl,
        List.append_nil]
  refine ⟨main L, ?_⟩
  rw [main L]
  exact main L2

/-- Witness for C5 at a concrete `$`-free string. -/
theorem Eval_noDollar_identity_witness :
    Eval "abcdEFGH28ij" lookupF = ("abcdEFGH28ij", Option.none) :=
  (Eval_noDollar_identity "abcdEFGH28ij" lookupF lookupF (by decide)).1

/-- C1: refuted on the code.  The claim (with spec §6 and `TestEvalMap` in
`src/eval_test.go`) expects the map-based entry point to fail with
`ValueNotFoundError("abc")` on `expand_map("${abc}", {})`, but
`src/eval.go:21-29` delegates `ApplyReplacements` to the single non-strict
`Eval` path (first conjunct, for every input and map), so at that input
the bare absent reference renders as the empty string and no error is
produced (second conjunct). -/
theorem ApplyReplacements_delegates_nonstrict (s : String)
    (values : List (String × String)) :
    ApplyReplacements s values = Eval s (mapMapping values)
    ∧ ApplyReplacements "${abc}" [] = ("", Option.none) :=
  ⟨rfl, rfl⟩
